import Mathlib

/-!
Verification of the Super-TXT crawler (`app.py`).

A shallow embedding of the program's pure core: URL handling
(`urldefrag`, `urlparse` for absolute URLs at ASCII fidelity), the slug
sanitizer (`slugify`), robots.txt parsing (`fetch_robots_disallows`,
`allowed_by_robots`), scope checks (`same_domain`, `under_pfx`), the
address mapper (`path_for_url`), the fragment slicer
(`slice_fragment_section`) and metadata extraction
(`title_and_desc_from_html`) over a parsed DOM tree, and the crawl
orchestration loop (`acrawl`) with the network modelled as an explicit
environment of fetch results.  Side effects that do not influence the
verified properties (file writing, progress UI, the Markdown renderer)
are omitted; their call sites are noted in comments.
-/

namespace SuperTxt

/-- Python whitespace characters (`str.strip`, `str.split` with no
arguments); ASCII fidelity. -/
def wsChar (c : Char) : Bool :=
  c = ' ' || c = '\t' || c = '\n' || c = '\r' || c = '\x0b' || c = '\x0c'

/-- Python `str.strip()` on a character list: drop whitespace at both ends. -/
def pyStripL (l : List Char) : List Char :=
  ((l.dropWhile wsChar).reverse.dropWhile wsChar).reverse

/-- Python `str.strip()`. -/
def pyStrip (s : String) : String := String.mk (pyStripL s.toList)

/-- Python `str.lower()`, ASCII fidelity (`Char.toLower` lowers A-Z only). -/
def lowerStr (s : String) : String := String.mk (s.toList.map Char.toLower)

/-- Python `s.startswith(pre)`. -/
def startswith (s pre : String) : Bool := pre.toList.isPrefixOf s.toList

/-- Python `str.split()` with no arguments: split on whitespace runs, no empty
pieces.  `acc` is the current word, reversed. -/
def splitWsAux (acc : List Char) : List Char → List (List Char)
  | [] => if acc = [] then [] else [acc.reverse]
  | c :: cs =>
      if wsChar c then
        if acc = [] then splitWsAux [] cs else acc.reverse :: splitWsAux [] cs
      else splitWsAux (c :: acc) cs

def splitWsL (l : List Char) : List (List Char) := splitWsAux [] l

/-- Python `str.splitlines()` restricted to the line breaks `\n`, `\r\n`, `\r`
(the ones that occur in the verified inputs).  `acc` is the current
line, reversed. -/
def splitlinesAux (acc : List Char) : List Char → List (List Char)
  | [] => if acc = [] then [] else [acc.reverse]
  | '\r' :: '\n' :: tl => acc.reverse :: splitlinesAux [] tl
  | '\n' :: tl => acc.reverse :: splitlinesAux [] tl
  | '\r' :: tl => acc.reverse :: splitlinesAux [] tl
  | c :: tl => splitlinesAux (c :: acc) tl

def splitlinesL (l : List Char) : List (List Char) := splitlinesAux [] l

def splitlines (s : String) : List String :=
  (splitlinesL s.toList).map String.mk

/-- Everything after the first occurrence of `c`, i.e. the second half of
`s.split(c, 1)`; the callers only use it on strings that contain `c`. -/
def afterFirstL (c : Char) : List Char → List Char
  | [] => []
  | d :: ds => if d = c then ds else afterFirstL c ds

def afterFirst (c : Char) (s : String) : String := String.mk (afterFirstL c s.toList)

/-! ## `urldefrag` and `urlparse`

`urllib.parse.urldefrag` splits at the first `#`; `urlparse` is modelled
for absolute URLs at the fidelity of CPython's `urlsplit` plus the
params split, on ASCII inputs. -/

/-- Split at the first `#`: (part before, part after). -/
def defragAux : List Char → List Char × List Char
  | [] => ([], [])
  | c :: cs =>
      if c = '#' then ([], cs)
      else
        let p := defragAux cs
        (c :: p.1, p.2)

/-- Python `urllib.parse.urldefrag(url)`: the URL without its fragment, and the
fragment. -/
def urldefrag (s : String) : String × String :=
  let p := defragAux s.toList
  (String.mk p.1, String.mk p.2)

/-- CPython `scheme_chars`: letters, digits, `+`, `-`, `.`. -/
def schemeChar (c : Char) : Bool := c.isAlpha || c.isDigit || c = '+' || c = '-' || c = '.'

/-- Index of the first occurrence of `c`, if any (`str.find`). -/
def findIdx? (c : Char) : List Char → Option Nat
  | [] => none
  | d :: ds => if d = c then some 0 else (findIdx? c ds).map (· + 1)

structure ParseResult where
  scheme : String
  netloc : String
  path : String
  params : String
  query : String
  fragment : String
deriving Repr, DecidableEq

/-- Split off `scheme:` when the part before the first `:` is a valid
scheme (first char an ASCII letter, all chars scheme chars). -/
def splitScheme (l : List Char) : List Char × List Char :=
  match findIdx? ':' l with
  | none => ([], l)
  | some i =>
      if 0 < i ∧ (l.take i).all schemeChar ∧ (l.headD ' ').isAlpha then
        (l.take i, l.drop (i + 1))
      else ([], l)

/-- Split off `//netloc` when present: netloc runs to the next `/`, `?`
or `#`. -/
def splitNetloc (l : List Char) : List Char × List Char :=
  match l with
  | '/' :: '/' :: rest =>
      (rest.takeWhile (fun c => c ≠ '/' ∧ c ≠ '?' ∧ c ≠ '#'),
       rest.dropWhile (fun c => c ≠ '/' ∧ c ≠ '?' ∧ c ≠ '#'))
  | _ => ([], l)

/-- Split at the first occurrence of `c`: (before, after); when `c` does
not occur, (whole, []). -/
def splitFirst (c : Char) : List Char → List Char × List Char
  | [] => ([], [])
  | d :: ds =>
      if d = c then ([], ds)
      else
        let p := splitFirst c ds
        (d :: p.1, p.2)

/-- CPython `_splitparams`: split the params off the last path segment at
its first `;`. -/
def splitParams (l : List Char) : List Char × List Char :=
  if '/' ∈ l then
    -- search for ';' only in the segment after the last '/'
    let r := l.reverse.takeWhile (fun c => c ≠ '/')
    let pre := l.take (l.length - r.length)
    let seg := r.reverse
    if ';' ∈ seg then
      let p := splitFirst ';' seg
      (pre ++ p.1, p.2)
    else (l, [])
  else
    if ';' ∈ l then splitFirst ';' l else (l, [])

/-- Python `urllib.parse.urlparse` for ASCII inputs: scheme, netloc, path,
params, query, fragment. -/
def urlparse (url : String) : ParseResult :=
  let l := url.toList
  let s := splitScheme l
  let n := splitNetloc s.2
  let f := splitFirst '#' n.2
  let q := splitFirst '?' f.1
  let pp := splitParams q.1
  { scheme := lowerStr (String.mk s.1)
    netloc := String.mk n.1
    path := String.mk pp.1
    params := String.mk pp.2
    query := String.mk q.2
    fragment := String.mk f.2 }

/-! ## `slugify` (app.py lines 96-102) -/

/-- The character class of `_slug_re`: `[a-zA-Z0-9\-_.]`. -/
def slugChar (c : Char) : Bool :=
  ('a' ≤ c && c ≤ 'z') || ('A' ≤ c && c ≤ 'Z') || ('0' ≤ c && c ≤ '9') ||
    c = '-' || c = '_' || c = '.'

/-- The substitution `_slug_re.sub("-", ·)`: each maximal run of characters outside the
class becomes a single hyphen.  `inRun` records whether the previous
character was part of such a run (its hyphen already emitted). -/
def subRunsAux (inRun : Bool) : List Char → List Char
  | [] => []
  | c :: cs =>
      if slugChar c then c :: subRunsAux false cs
      else if inRun then subRunsAux true cs
      else '-' :: subRunsAux true cs

def subRuns (l : List Char) : List Char := subRunsAux false l

/-- The substitution `re.sub(r"-+", "-", ·)`: collapse hyphen runs.  `prevHy` records
whether the previously emitted character was a hyphen. -/
def collapseHyAux (prevHy : Bool) : List Char → List Char
  | [] => []
  | c :: cs =>
      if c = '-' then
        if prevHy then collapseHyAux true cs else '-' :: collapseHyAux true cs
      else c :: collapseHyAux false cs

def collapseHy (l : List Char) : List Char := collapseHyAux false l

/-- The characters trimmed by `.strip("-._")`. -/
def trimChar (c : Char) : Bool := c = '-' || c = '.' || c = '_'

/-- Python `.strip("-._")` on a character list. -/
def stripTrim (l : List Char) : List Char :=
  ((l.dropWhile trimChar).reverse.dropWhile trimChar).reverse

/-- Space to hyphen (`.replace(" ", "-")`). -/
def spaceHy (c : Char) : Char := if c = ' ' then '-' else c

/-- The sanitizer `slugify` (app.py lines 98-102): strip, lower, spaces to hyphens,
non-class runs to hyphens, collapse hyphens, trim `-._`, default
`"index"`. -/
def slugify (s : String) : String :=
  let t := ((pyStripL s.toList).map Char.toLower).map spaceHy
  let r := stripTrim (collapseHy (subRuns t))
  if r = [] then "index" else String.mk r

/-- Per-character replacement: a character outside the class becomes a
hyphen (the specification's reading of the substitution). -/
def chi (c : Char) : Char := if slugChar c then c else '-'

/-- The sanitization pipeline exactly as the specification words it
(no initial whitespace strip; per-character replacement outside the
class): lowercase, spaces to hyphens, any character outside
`[A-Za-z0-9-_.]` to hyphen, collapse repeated hyphens, trim leading and
trailing `-._`, empty result to `"index"`. -/
def slugifySpec (s : String) : String :=
  let t := ((s.toList.map Char.toLower).map spaceHy).map chi
  let r := stripTrim (collapseHy t)
  if r = [] then "index" else String.mk r

/-! ## robots.txt (app.py lines 106-134)

The network call of `fetch_robots_disallows` is modelled by passing the
HTTP response (status code and body) explicitly; `none` stands for a
network failure or exception (the function's `except` branch). -/

/-- The line scan of `fetch_robots_disallows` (app.py lines 114-126):
track whether the active `User-agent` group is `*`; inside it, collect
non-empty `Disallow:` values.  The Python `set` is modelled as a
duplicate-free list. -/
def robotsScan : Bool → List String → List String → List String
  | _, ds, [] => ds
  | uaStar, ds, line0 :: rest =>
      let line := pyStrip line0
      if line = "" || startswith line "#" then robotsScan uaStar ds rest
      else if startswith (lowerStr line) "user-agent:" then
        robotsScan (pyStrip (afterFirst ':' line) = "*") ds rest
      else if uaStar && startswith (lowerStr line) "disallow:" then
        let p := pyStrip (afterFirst ':' line)
        if p ≠ "" then
          robotsScan uaStar (if p ∈ ds then ds else ds ++ [p]) rest
        else robotsScan uaStar ds rest
      else robotsScan uaStar ds rest

/-- The fetcher `fetch_robots_disallows` (app.py lines 106-128) applied to an
explicit robots.txt HTTP response: `none` on network failure or
non-200; otherwise the parsed disallow set. -/
def fetch_robots_disallows (resp : Option (Nat × String)) : Option (List String) :=
  match resp with
  | none => none
  | some (status, body) =>
      if status ≠ 200 then none
      else some (robotsScan false [] (splitlines body))

/-- The expression `urlparse(url).path or '/'` (app.py lines 133, 144). -/
def pathOr (url : String) : String :=
  if (urlparse url).path = "" then "/" else (urlparse url).path

/-- The check `allowed_by_robots` (app.py lines 130-134): an empty or absent
disallow set means everything is allowed. -/
def allowed_by_robots (url : String) (disallows : Option (List String)) : Bool :=
  match disallows with
  | none => true
  | some ds =>
      if ds.isEmpty then true
      else !(ds.any (fun pre => startswith (pathOr url) pre))

/-! ## scope checks (app.py lines 138-144) -/

/-- The check `same_domain` (app.py lines 138-139). -/
def same_domain (a b : String) : Bool :=
  lowerStr (urlparse a).netloc == lowerStr (urlparse b).netloc

/-- The path filter of app.py lines 141-144 (named after its source); a `None` or empty filter
always passes. -/
def under_pfx (url : String) (p : Option String) : Bool :=
  match p with
  | none => true
  | some pre => if pre = "" then true else startswith (pathOr url) pre

/-! ## address mapper (app.py lines 158-171)

`path_for_url` also creates the output directory (`os.makedirs`); that
side effect has no bearing on the returned pair and is omitted.
`os.path.join` is modelled for the non-absolute, slug-valued components
it receives here: join with `/`, avoiding a doubled separator. -/

def joinPath (a b : String) : String :=
  if a = "" || a.toList.getLast? = some '/' then a ++ b else a ++ "/" ++ b

/-- Python `str.split('/')` (keeps empty pieces), on a character list. -/
def splitSlashAux (acc : List Char) : List Char → List (List Char)
  | [] => [acc.reverse]
  | d :: ds => if d = '/' then acc.reverse :: splitSlashAux [] ds
               else splitSlashAux (d :: acc) ds

def splitSlash (s : String) : List String := (splitSlashAux [] s.toList).map String.mk

/-- The non-empty path segments of the defragmented URL
(app.py lines 161-163): `segs`. -/
def segsOf (url_no_frag : String) : List String :=
  let parsed := urlparse url_no_frag
  let segs0 := (splitSlash (if parsed.path = "" then "/" else parsed.path)).filter
    (fun s => s ≠ "")
  if segs0 = [] then ["index"] else segs0

/-- The stem base `segs[-1] or 'index'` (app.py line 164). -/
def stemBase (url_no_frag : String) : String :=
  if (segsOf url_no_frag).getLast! = "" then "index" else (segsOf url_no_frag).getLast!

/-- The address mapper `path_for_url` (app.py lines 158-171): returns (file path, stem). -/
def path_for_url (url : String) (base_dir : String) : String × String :=
  let d := urldefrag url
  let segs := segsOf d.1
  let stem0 := slugify (stemBase d.1)
  let stem := if d.2 ≠ "" then stem0 ++ "__" ++ slugify d.2 else stem0
  let folders := if segs.length > 1 then segs.dropLast else ["root"]
  let out_dir := (folders.map slugify).foldl joinPath base_dir
  (joinPath out_dir (stem ++ ".md"), stem)

example : fetch_robots_disallows (some (200, "User-agent: *\nDisallow: /private")) =
    some ["/private"] := by decide
example : allowed_by_robots "https://h/private/x" (some ["/private"]) = false := by decide
example : allowed_by_robots "https://h/public" (some ["/private"]) = true := by decide
example : same_domain "https://Docs.example/a" "https://docs.EXAMPLE/b" = true := by decide
example : path_for_url "https://h/guide/intro#setup" "./export" =
    ("./export/guide/intro__setup.md", "intro__setup") := by decide
example : path_for_url "https://h/" "./export" =
    ("./export/root/index.md", "index") := by decide

/-! ## DOM model

`BeautifulSoup(html, 'html.parser')` is an external parser; the
functions below are modelled over the parsed document: a forest of
tags (name, attributes, children) and navigable strings.  Parent and
sibling navigation is recovered from the tree structure. -/

inductive Node where
  | tag : String → List (String × String) → List Node → Node
  | text : String → Node
deriving Repr

/-- A tag's name; a `NavigableString` has no name. -/
def Node.name : Node → String
  | .tag nm _ _ => nm
  | .text _ => ""

/-- First value of an attribute, `none` on strings. -/
def Node.attr : Node → String → Option String
  | .tag _ attrs _, k => (attrs.find? (fun a => a.1 == k)).map (·.2)
  | .text _, _ => none

mutual
/-- The ancestor chain of the first node (in document pre-order)
satisfying `p`: a list of (node, its following siblings), starting at
the found node itself and ending at its outermost ancestor.  This is
the data the source walks with `.parent` and `.next_siblings`. -/
def findChainIn (p : Node → Bool) : List Node → Option (List (Node × List Node))
  | [] => none
  | n :: rest =>
      match findChainNode p n rest with
      | some c => some c
      | none => findChainIn p rest
def findChainNode (p : Node → Bool) (n : Node) (after : List Node) :
    Option (List (Node × List Node)) :=
  if p n then some [(n, after)]
  else
    match n with
    | .text _ => none
    | .tag _ _ cs => (findChainIn p cs).map (fun c => c ++ [(n, after)])
end

/-- The lookup `soup.find(id=fragment) or soup.find(attrs=dict(name=fragment))`
(app.py line 186), returning the node's ancestor chain. -/
def findTarget (doc : List Node) (fragment : String) :
    Option (List (Node × List Node)) :=
  match findChainIn (fun n => n.attr "id" == some fragment) doc with
  | some c => some c
  | none => findChainIn (fun n => n.attr "name" == some fragment) doc

def heading_tags : List String := ["h1", "h2", "h3", "h4", "h5", "h6"]

/-- Python `int(name[1])` for the names this is applied to. -/
def digitAt1 (nm : String) : Nat :=
  match nm.toList with
  | _ :: d :: _ => d.toNat - '0'.toNat
  | _ => 0

/-- app.py line 195: the section level of the start node. -/
def levelOf (nm : String) : Nat :=
  if nm ≠ "" ∧ startswith nm "h" ∧ nm.toList.drop 1 ≠ [] ∧
      (nm.toList.drop 1).all Char.isDigit then
    digitAt1 nm
  else 6

/-- app.py line 198: a sibling that terminates the section — a tag whose
name is a heading of rank at most `level`. -/
def stopsSection (level : Nat) : Node → Bool
  | .tag nm _ _ => nm ∈ heading_tags && digitAt1 nm ≤ level
  | .text _ => false

/-- The slicer `slice_fragment_section` (app.py lines 182-205).  The source
serializes the collected nodes into an HTML string via a `div`
container; the model returns the container node itself. -/
def slice_fragment_section (doc : List Node) (fragment : String) : Option Node :=
  if fragment = "" then none
  else
    match findTarget doc fragment with
    | none => none
    | some [] => none
    | some ((tNode, tAfter) :: chainRest) =>
        -- walk upward to the nearest enclosing-or-self heading
        let sa := (((tNode, tAfter) :: chainRest).find?
          (fun e => e.1.name ∈ heading_tags)).getD (tNode, tAfter)
        let level := levelOf sa.1.name
        some (.tag "div" []
          (sa.1 :: sa.2.takeWhile (fun sib => !stopsSection level sib)))

/-! ## title and description (app.py lines 173-180) -/

/-- bs4 `Tag.string`: the single string child, descending through a
single tag child; `none` when the tag has zero or several children. -/
def tagString : Node → Option String
  | .text s => some s
  | .tag _ _ [c] => tagString c
  | .tag _ _ _ => none

/-- The first tag (in document pre-order) with the given name:
`soup.title`, `soup.find('p')`. -/
def find_first_tag (nm : String) (doc : List Node) : Option Node :=
  (findChainIn (fun n => n.name == nm) doc).bind (fun c => (c.head?).map (·.1))

mutual
/-- All string descendants of a node, in document order. -/
def nodeTexts : Node → List String
  | .text s => [s]
  | .tag _ _ cs => nodesTexts cs
def nodesTexts : List Node → List String
  | [] => []
  | n :: rest => nodeTexts n ++ nodesTexts rest
end

/-- bs4 `get_text(' ', strip=True)`: strip each string, drop the ones
that become empty, join with single spaces. -/
def get_text_strip (n : Node) : String :=
  String.intercalate " " (((nodeTexts n).map pyStrip).filter (fun s => s ≠ ""))

/-- Python `' '.join(s.split())`: whitespace-collapse. -/
def collapseWs (s : String) : String :=
  String.intercalate " " ((splitWsL s.toList).map String.mk)

/-- Python `s[:280]` (slices by code point). -/
def take280 (s : String) : String := String.mk (s.toList.take 280)

/-- The extractor `title_and_desc_from_html` (app.py lines 173-180). -/
def title_and_desc_from_html (doc : List Node) : String × String :=
  let title :=
    match (find_first_tag "title" doc).bind tagString with
    | some s => if s = "" then "Untitled" else pyStrip s
    | none => "Untitled"
  let desc :=
    match find_first_tag "p" doc with
    | some p => take280 (collapseWs (get_text_strip p))
    | none => ""
  (title, desc)

example :
    slice_fragment_section
      [Node.tag "body" []
        [Node.tag "h2" [("id", "sec")] [Node.text "Sec"],
         Node.tag "p" [] [Node.text "a"],
         Node.tag "h3" [] [Node.text "Sub"],
         Node.tag "p" [] [Node.text "b"],
         Node.tag "h2" [] [Node.text "Next"],
         Node.tag "p" [] [Node.text "c"]]] "sec" =
    some (Node.tag "div" []
      [Node.tag "h2" [("id", "sec")] [Node.text "Sec"],
       Node.tag "p" [] [Node.text "a"],
       Node.tag "h3" [] [Node.text "Sub"],
       Node.tag "p" [] [Node.text "b"]]) := by rfl

example :
    title_and_desc_from_html
      [Node.tag "html" []
        [Node.tag "head" [] [Node.tag "title" [] [Node.text "  T  "]],
         Node.tag "body" [] [Node.tag "p" [] [Node.text " a ", Node.text "b  c "]]]] =
    ("T", "a b c") := by rfl

example : title_and_desc_from_html [Node.tag "p" [] []] = ("Untitled", "") := by rfl

/-! ## crawl orchestrator (app.py lines 264-363)

`acrawl` drives a FIFO frontier.  The network and the HTML parser are
external collaborators, modelled as an explicit environment:
`fetch_html u` is the outcome of app.py lines 220-231 (`none` for a
non-200, non-HTML or failed request, otherwise the page text and the
final post-redirect URL), `extract_links final_url html` is the `<a
href>` extraction of app.py lines 146-154 on the fetched page, and
`robots_resp` maps a robots.txt URL to its HTTP response.  Markdown
rendering and file writing (app.py lines 313-342) only affect file
contents, not the traversal; the record list keeps the page URLs (the
`url` field of each appended `PageRecord`).  The state also logs, as
`fetched`, every URL passed to `fetch_html` — the observable "a fetch
occurred" events. -/

structure JobConfig where
  seeds : List String
  same_domain : Bool := true
  path_pfx : Option String := none
  max_pages : Nat := 200
  output_dir : String := "./export"
  make_zip : Bool := true
  obey_robots : Bool := true
  include_fragments : Bool := true

structure CrawlEnv where
  fetch_html : String → Option (String × String)
  extract_links : String → String → List String
  robots_resp : String → Option (Nat × String)

structure CrawlState where
  q : List String
  visited : List String
  cache : List (String × Option (List String))
  records : List String
  processed : Nat
  fetched : List String
deriving Repr

/-- The same-domain test of app.py line 302: pass when the flag is off
or some seed matches. -/
def seed_domain_ok (cfg : JobConfig) (u : String) : Bool :=
  !cfg.same_domain || cfg.seeds.any (fun s => same_domain u s)

/-- The `allowed` closure of app.py lines 271-277, with its per-host
robots cache made explicit: returns the verdict and the updated cache. -/
def allowed_cached (env : CrawlEnv) (cfg : JobConfig)
    (cache : List (String × Option (List String))) (u : String) :
    Bool × List (String × Option (List String)) :=
  if !cfg.obey_robots then (true, cache)
  else
    let host := (urlparse u).netloc
    match cache.lookup host with
    | some ds => (allowed_by_robots u ds, cache)
    | none =>
        let ds := fetch_robots_disallows
          (env.robots_resp ((urlparse u).scheme ++ "://" ++ host ++ "/robots.txt"))
        (allowed_by_robots u ds, (host, ds) :: cache)

/-- The links appended to the frontier after a page is processed
(app.py lines 349-357): defragment, skip visited and out-of-scope, keep
page order. -/
def discovered_links (env : CrawlEnv) (cfg : JobConfig) (visited : List String)
    (final_url html : String) : List String :=
  (env.extract_links final_url html).filterMap (fun link =>
    let ln := (urldefrag link).1
    if ln ∈ visited then none
    else if !seed_domain_ok cfg ln then none
    else if !under_pfx ln cfg.path_pfx then none
    else some ln)

/-- One loop body of `acrawl` (app.py lines 294-357) after the head of
the frontier has been popped into `raw0`; `st.q` already holds the rest
of the frontier. -/
def processHead (env : CrawlEnv) (cfg : JobConfig) (raw0 : String)
    (st : CrawlState) : CrawlState :=
  let raw := pyStrip raw0
  if raw = "" then st
  else
    let u := (urldefrag raw).1
    let frag := (urldefrag raw).2
    if u ∈ st.visited then st
    else
      let st := { st with visited := u :: st.visited }
      if !seed_domain_ok cfg u then st
      else if !under_pfx u cfg.path_pfx then st
      else
        let av := allowed_cached env cfg st.cache u
        let st := { st with cache := av.2 }
        if !av.1 then st
        else
          let st := { st with fetched := st.fetched ++ [u] }
          match env.fetch_html u with
          | none => st
          | some (html, final_url) =>
              if html = "" then st   -- `if not html: continue`
              else
                -- markdown rendering, fragment slicing and persistence
                -- (app.py lines 313-343) write the file; the record keeps
                -- the raw URL
                let _ := frag
                let st := { st with records := st.records ++ [raw],
                                    processed := st.processed + 1 }
                { st with q := st.q ++ discovered_links env cfg st.visited final_url html }

/-- One `while` test plus loop body: `none` when the loop exits
(frontier empty or page budget reached). -/
def crawlStep (env : CrawlEnv) (cfg : JobConfig) (st : CrawlState) :
    Option CrawlState :=
  match st.q with
  | [] => none
  | raw0 :: rest =>
      if cfg.max_pages ≤ st.processed then none
      else some (processHead env cfg raw0 { st with q := rest })

/-- The `while` loop of app.py lines 293-357, with explicit fuel (the
loop terminates; fuel-indexing only bounds the number of iterations
modelled). -/
def crawlLoop (env : CrawlEnv) (cfg : JobConfig) : Nat → CrawlState → CrawlState
  | 0, st => st
  | fuel + 1, st =>
      match crawlStep env cfg st with
      | none => st
      | some st' => crawlLoop env cfg fuel st'

/-- The crawl `acrawl` (app.py lines 264-363): frontier seeded with `cfg.seeds`,
everything else empty. -/
def acrawl (env : CrawlEnv) (cfg : JobConfig) (fuel : Nat) : CrawlState :=
  crawlLoop env cfg fuel
    { q := cfg.seeds, visited := [], cache := [], records := [],
      processed := 0, fetched := [] }

/-! ## depth-annotated crawl loop

For the breadth-first ordering property each frontier entry carries its
discovery depth (seeds at depth 0, links found on a depth-`d` page at
depth `d+1`) and every dequeue is logged.  The depth is ghost data: no
decision reads it, and `crawlLoopD_erase` below shows the loop is the
plain `crawlLoop` on the underlying URL strings. -/

structure CrawlStateD where
  q : List (String × Nat)
  visited : List String
  cache : List (String × Option (List String))
  records : List String
  processed : Nat
  fetched : List String
  popLog : List (String × Nat)
deriving Repr

def processHeadD (env : CrawlEnv) (cfg : JobConfig) (raw0 : String) (d : Nat)
    (st : CrawlStateD) : CrawlStateD :=
  let raw := pyStrip raw0
  if raw = "" then st
  else
    let u := (urldefrag raw).1
    if u ∈ st.visited then st
    else
      let st := { st with visited := u :: st.visited }
      if !seed_domain_ok cfg u then st
      else if !under_pfx u cfg.path_pfx then st
      else
        let av := allowed_cached env cfg st.cache u
        let st := { st with cache := av.2 }
        if !av.1 then st
        else
          let st := { st with fetched := st.fetched ++ [u] }
          match env.fetch_html u with
          | none => st
          | some (html, final_url) =>
              if html = "" then st
              else
                let st := { st with records := st.records ++ [raw],
                                    processed := st.processed + 1 }
                let adds := (discovered_links env cfg st.visited final_url html).map
                  (fun ln => (ln, d + 1))
                { st with q := st.q ++ adds }

def crawlStepD (env : CrawlEnv) (cfg : JobConfig) (st : CrawlStateD) :
    Option CrawlStateD :=
  match st.q with
  | [] => none
  | (raw0, d) :: rest =>
      if cfg.max_pages ≤ st.processed then none
      else some (processHeadD env cfg raw0 d
        { st with q := rest, popLog := st.popLog ++ [(raw0, d)] })

def crawlLoopD (env : CrawlEnv) (cfg : JobConfig) : Nat → CrawlStateD → CrawlStateD
  | 0, st => st
  | fuel + 1, st =>
      match crawlStepD env cfg st with
      | none => st
      | some st' => crawlLoopD env cfg fuel st'

def acrawlD (env : CrawlEnv) (cfg : JobConfig) (fuel : Nat) : CrawlStateD :=
  crawlLoopD env cfg fuel
    { q := cfg.seeds.map (fun s => (s, 0)), visited := [], cache := [],
      records := [], processed := 0, fetched := [], popLog := [] }

/-- Forget the ghost depths and the dequeue log. -/
def eraseD (st : CrawlStateD) : CrawlState :=
  { q := st.q.map (·.1), visited := st.visited, cache := st.cache,
    records := st.records, processed := st.processed, fetched := st.fetched }

/-! ## crawl fixtures for the concrete witnesses -/

/-- A one-page site at `https://h/p` with no outbound links; robots.txt
is unreachable. -/
def envW : CrawlEnv :=
  { fetch_html := fun u =>
      if u = "https://h/p" then some ("<html>x</html>", "https://h/p") else none,
    extract_links := fun _ _ => [],
    robots_resp := fun _ => none }

/-- Two seeds that differ only in their fragment. -/
def cfgW : JobConfig :=
  { seeds := ["https://h/p#a", "https://h/p#b"], max_pages := 5 }

/-- The frontier always consists of a block of entries at some depth
`d` followed by a block at depth `d + 1`. -/
def QShape (q : List (String × Nat)) : Prop :=
  ∃ d l1 l2, q = l1 ++ l2 ∧ (∀ x ∈ l1, x.2 = d) ∧ (∀ x ∈ l2, x.2 = d + 1)

/-- Crawl invariant: dequeued entries followed by the frontier have
non-decreasing depths, and the frontier is two-block shaped. -/
def InvD (st : CrawlStateD) : Prop :=
  List.Sorted (· ≤ ·) ((st.popLog ++ st.q).map (·.2)) ∧ QShape st.q

example : slugify "  Hello World!  " = "hello-world" := by decide

/-! ## helper lemmas -/

lemma defragAux_fst_no_hash : ∀ l : List Char, '#' ∉ (defragAux l).1 := by
  intro l
  induction l with
  | nil => simp [defragAux]
  | cons c cs ih =>
      by_cases hc : c = '#'
      · simp [defragAux, hc]
      · simp only [defragAux, if_neg hc, List.mem_cons, not_or]
        exact ⟨fun h => hc h.symm, ih⟩

lemma defragAux_no_hash_eq {l : List Char} (h : '#' ∉ l) : defragAux l = (l, []) := by
  induction l with
  | nil => simp [defragAux]
  | cons c cs ih =>
      simp only [List.mem_cons, not_or] at h
      obtain ⟨h1, h2⟩ := h
      have hc : ¬ c = '#' := fun hh => h1 hh.symm
      simp [defragAux, hc, ih h2]

lemma toList_mk (l : List Char) : (String.mk l).toList = l := rfl

/-- Defragmenting is idempotent: the first component of `urldefrag`
carries no `#`. -/
lemma urldefrag_idem (s : String) :
    urldefrag (urldefrag s).1 = ((urldefrag s).1, "") := by
  simp only [urldefrag, toList_mk]
  rw [defragAux_no_hash_eq (defragAux_fst_no_hash s.toList)]

lemma string_mk_nil : String.mk ([] : List Char) = "" := rfl

/-! ## C6 — fragment-stripped stem is a prefix of the fragment-bearing stem -/

/-- C6: for any URL, the stem the Address Mapper produces for its
fragment-stripped form is a prefix of the stem produced for the URL
itself; when a fragment is present it contributes exactly
`__<slugified-fragment>`.  (A URL `v` "differing from `u` only by
fragment" means `u = (urldefrag v).1`.) -/
theorem fragment_stem_extension (v base_dir : String) :
    (path_for_url v base_dir).2 =
      (if (urldefrag v).2 = "" then (path_for_url (urldefrag v).1 base_dir).2
       else (path_for_url (urldefrag v).1 base_dir).2 ++ "__" ++
         slugify (urldefrag v).2) ∧
    ∃ t, (path_for_url v base_dir).2 = (path_for_url (urldefrag v).1 base_dir).2 ++ t := by
  have hidem := urldefrag_idem v
  have hbase : (path_for_url (urldefrag v).1 base_dir).2 =
      slugify (stemBase (urldefrag v).1) := by
    simp only [path_for_url, hidem]
    simp
  have hv : (path_for_url v base_dir).2 =
      (if (urldefrag v).2 ≠ "" then
        slugify (stemBase (urldefrag v).1) ++ "__" ++ slugify (urldefrag v).2
       else slugify (stemBase (urldefrag v).1)) := rfl
  constructor
  · by_cases hf : (urldefrag v).2 = ""
    · simp [hv, hbase, hf]
    · simp [hv, hbase, hf]
  · by_cases hf : (urldefrag v).2 = ""
    · exact ⟨"", by simp [hv, hbase, hf]⟩
    · exact ⟨"__" ++ slugify (urldefrag v).2, by
        simp [hv, hbase, hf, String.append_assoc]⟩

/-! ## C9 — same-domain check -/

/-- C9: with `same_domain` enabled a URL passes the same-domain check
iff its network location (case-insensitively) equals that of some seed;
with the flag disabled the check always passes. -/
theorem same_domain_check_iff (cfg : JobConfig) (u : String) :
    seed_domain_ok cfg u = true ↔
      (cfg.same_domain = true →
        ∃ s ∈ cfg.seeds,
          lowerStr (urlparse u).netloc = lowerStr (urlparse s).netloc) := by
  cases h : cfg.same_domain with
  | false => simp [seed_domain_ok, h]
  | true => simp [seed_domain_ok, h, List.any_eq_true, same_domain, beq_iff_eq]

/-- Witness for C9 at a concrete configuration and URL. -/
theorem same_domain_check_iff_witness :
    (seed_domain_ok { seeds := ["https://Docs.example/api"] } "https://docs.EXAMPLE/x" = true ↔
      (({ seeds := ["https://Docs.example/api"] } : JobConfig).same_domain = true →
        ∃ s ∈ ({ seeds := ["https://Docs.example/api"] } : JobConfig).seeds,
          lowerStr (urlparse "https://docs.EXAMPLE/x").netloc =
            lowerStr (urlparse s).netloc)) :=
  same_domain_check_iff { seeds := ["https://Docs.example/api"] } "https://docs.EXAMPLE/x"

/-! ## C4 — robots disallow matching and fail-open behaviour -/

lemma startswith_ne_empty {s pre : String} (hpre : pre ≠ "")
    (h : startswith s pre = true) : s ≠ "" := by
  intro hs
  subst hs
  cases hp : pre.toList with
  | nil =>
      apply hpre
      cases pre with
      | mk data => simpa [String.toList] using congrArg String.mk hp
  | cons c cs =>
      rw [startswith, hp] at h
      simp [List.isPrefixOf] at h

/-- C4: with the robots body `User-agent: *` + `Disallow: /private`
fetched with status 200, any URL whose path starts with `/private` is
rejected and any URL whose (defaulted) path does not is allowed; a
non-200 response or a failed fetch leaves every URL allowed. -/
theorem robots_disallow_and_fail_open :
    (∀ u : String, startswith (urlparse u).path "/private" = true →
      allowed_by_robots u
        (fetch_robots_disallows (some (200, "User-agent: *\nDisallow: /private"))) = false) ∧
    (∀ u : String, startswith (pathOr u) "/private" = false →
      allowed_by_robots u
        (fetch_robots_disallows (some (200, "User-agent: *\nDisallow: /private"))) = true) ∧
    (∀ (u body : String) (status : Nat), status ≠ 200 →
      allowed_by_robots u (fetch_robots_disallows (some (status, body))) = true) ∧
    (∀ u : String, allowed_by_robots u (fetch_robots_disallows none) = true) := by
  have hparse : fetch_robots_disallows
      (some (200, "User-agent: *\nDisallow: /private")) = some ["/private"] := by decide
  refine ⟨?_, ?_, ?_, ?_⟩
  · intro u hu
    have hne : (urlparse u).path ≠ "" := startswith_ne_empty (by decide) hu
    rw [hparse]
    simp [allowed_by_robots, pathOr, hne, hu]
  · intro u hu
    rw [hparse]
    simp [allowed_by_robots, hu]
  · intro u body status hs
    simp [fetch_robots_disallows, hs, allowed_by_robots]
  · intro u
    simp [fetch_robots_disallows, allowed_by_robots]

/-- Witness for C4 at the URLs of the specification's example and a 404
response. -/
theorem robots_disallow_and_fail_open_witness :
    allowed_by_robots "https://h/private/x"
        (fetch_robots_disallows (some (200, "User-agent: *\nDisallow: /private"))) = false ∧
    allowed_by_robots "https://h/public"
        (fetch_robots_disallows (some (200, "User-agent: *\nDisallow: /private"))) = true ∧
    allowed_by_robots "https://h/anything"
        (fetch_robots_disallows (some (404, "ignored"))) = true ∧
    allowed_by_robots "https://h/anything" (fetch_robots_disallows none) = true :=
  ⟨robots_disallow_and_fail_open.1 "https://h/private/x" (by decide),
   robots_disallow_and_fail_open.2.1 "https://h/public" (by decide),
   robots_disallow_and_fail_open.2.2.1 "https://h/anything" "ignored" 404 (by decide),
   robots_disallow_and_fail_open.2.2.2 "https://h/anything"⟩

/-! ## C10 — title and description extraction -/

/-- C10: the extracted title is `"Untitled"` when the document has no
`<title>` or the title has no (or an empty) string content; the
description is empty when there is no `<p>`, and otherwise is the first
paragraph's text, whitespace-collapsed and truncated to 280
characters. -/
theorem title_desc_extraction (doc : List Node) :
    (find_first_tag "title" doc = none →
      (title_and_desc_from_html doc).1 = "Untitled") ∧
    (∀ t, find_first_tag "title" doc = some t →
      (tagString t = none ∨ tagString t = some "") →
      (title_and_desc_from_html doc).1 = "Untitled") ∧
    (find_first_tag "p" doc = none → (title_and_desc_from_html doc).2 = "") ∧
    (∀ p, find_first_tag "p" doc = some p →
      (title_and_desc_from_html doc).2 = take280 (collapseWs (get_text_strip p))) := by
  refine ⟨?_, ?_, ?_, ?_⟩
  · intro h
    simp [title_and_desc_from_html, h]
  · intro t ht hs
    rcases hs with hs | hs <;> simp [title_and_desc_from_html, ht, hs]
  · intro h
    simp [title_and_desc_from_html, h]
  · intro p hp
    simp [title_and_desc_from_html, hp]

/-- Witness for C10: a document with no `<title>`, an empty `<title>`,
and a first `<p>`. -/
theorem title_desc_extraction_witness :
    (title_and_desc_from_html
        [Node.tag "p" [] [Node.text " a ", Node.text "b  c "]]).1 = "Untitled" ∧
    (title_and_desc_from_html
        [Node.tag "p" [] [Node.text " a ", Node.text "b  c "]]).2 =
      take280 (collapseWs (get_text_strip
        (Node.tag "p" [] [Node.text " a ", Node.text "b  c "]))) ∧
    (title_and_desc_from_html [Node.tag "title" [] []]).1 = "Untitled" :=
  ⟨(title_desc_extraction [Node.tag "p" [] [Node.text " a ", Node.text "b  c "]]).1 rfl,
   (title_desc_extraction [Node.tag "p" [] [Node.text " a ", Node.text "b  c "]]).2.2.2
     (Node.tag "p" [] [Node.text " a ", Node.text "b  c "]) rfl,
   (title_desc_extraction [Node.tag "title" [] []]).2.1
     (Node.tag "title" [] []) rfl (Or.inl rfl)⟩

/-! ## C5 — fragment section slicing

The claim's main clause (section started at an `h2`) holds.  Its
fallback clause fails on the code: with no enclosing heading the level
is not always 6 — app.py line 195 computes `int(start.name[1])`
whenever the element's name is `h` followed by digits, so a target
element named `h10` gets level 1 and a sibling `h2` does *not* end the
section. -/

lemma mem_takeWhile_of_front {α : Type} {p : α → Bool} :
    ∀ (pre : List α) (n : α) (post : List α),
      (∀ m ∈ pre, p m = true) → p n = true →
      n ∈ (pre ++ n :: post).takeWhile p
  | [], n, post, _, hn => by simp [List.takeWhile_cons, hn]
  | m :: pre, n, post, hpre, hn => by
      have hm : p m = true := hpre m (List.mem_cons_self m pre)
      simp only [List.cons_append, List.takeWhile_cons, hm, if_pos]
      exact List.mem_cons_of_mem m
        (mem_takeWhile_of_front pre n post
          (fun x hx => hpre x (List.mem_cons_of_mem m hx)) hn)

/-- C5 counterexample: the document `<h10 id="x"></h10><h2></h2>` has no
heading-named element around the target, so the claim prescribes an
implicit rank of 6 — under which the `h2` sibling (`stopsSection 6` is
true of it) must be excluded — yet the code slices with level
`int('1') = 1` and keeps the `h2`. -/
theorem slice_implicit_rank_counterexample :
    (findTarget [Node.tag "h10" [("id", "x")] [], Node.tag "h2" [] []] "x").map
        (fun c => c.all (fun e => !(heading_tags.contains e.1.name))) = some true ∧
    slice_fragment_section
        [Node.tag "h10" [("id", "x")] [], Node.tag "h2" [] []] "x" =
      some (Node.tag "div" [] [Node.tag "h10" [("id", "x")] [], Node.tag "h2" [] []]) ∧
    stopsSection 6 (Node.tag "h2" [] []) = true :=
  ⟨rfl, rfl, rfl⟩

/-- C5 (amended): when the fragment id locates a node whose
enclosing-or-self chain's nearest heading is an `h2`, the slice is that
heading plus its following siblings up to (excluding) the first
heading sibling of rank 1 or 2, intervening non-terminating siblings
(in particular `h3`-`h6`) included; when no heading-named element is in
the chain, the located element itself is the section root with
`levelOf` of its own name as the level — 6 for ordinary elements, but
the first digit for names of the form `h<digits>`. -/
theorem slice_section_amended (doc : List Node) (frag : String) (tN : Node)
    (tA : List Node) (chainRest : List (Node × List Node))
    (hf : frag ≠ "")
    (hc : findTarget doc frag = some ((tN, tA) :: chainRest)) :
    (∀ s a,
      ((tN, tA) :: chainRest).find? (fun e => e.1.name ∈ heading_tags) = some (s, a) →
      s.name = "h2" →
      slice_fragment_section doc frag =
          some (Node.tag "div" []
            (s :: a.takeWhile (fun sib => !stopsSection 2 sib))) ∧
        (∀ n ∈ a.takeWhile (fun sib => !stopsSection 2 sib),
          stopsSection 2 n = false) ∧
        (∀ pre n post, a = pre ++ n :: post →
          (∀ m ∈ pre, stopsSection 2 m = false) → stopsSection 2 n = false →
          n ∈ a.takeWhile (fun sib => !stopsSection 2 sib))) ∧
    (((tN, tA) :: chainRest).find? (fun e => e.1.name ∈ heading_tags) = none →
      slice_fragment_section doc frag =
        some (Node.tag "div" []
          (tN :: tA.takeWhile (fun sib => !stopsSection (levelOf tN.name) sib)))) := by
  constructor
  · intro s a hfind hname
    have hlevel : levelOf s.name = 2 := by rw [hname]; decide
    refine ⟨?_, ?_, ?_⟩
    · simp only [slice_fragment_section, if_neg hf, hc, hfind, Option.getD_some, hlevel]
    · intro n hn
      have := List.mem_takeWhile_imp hn
      simpa using this
    · intro pre n post ha hpre hn
      rw [ha]
      exact mem_takeWhile_of_front pre n post
        (fun m hm => by simp [hpre m hm]) (by simp [hn])
  · intro hfind
    simp only [slice_fragment_section, if_neg hf, hc, hfind, Option.getD_none]

/-- Witness for C5 on a concrete section: an `h2` with a following
paragraph and `h3` sub-heading, ended by a sibling `h2`. -/
theorem slice_section_amended_witness :
    slice_fragment_section
        [Node.tag "body" []
          [Node.tag "h2" [("id", "sec")] [Node.text "Sec"],
           Node.tag "p" [] [Node.text "a"],
           Node.tag "h3" [] [Node.text "Sub"],
           Node.tag "h2" [] [Node.text "Next"]]] "sec" =
      some (Node.tag "div" []
        ((Node.tag "h2" [("id", "sec")] [Node.text "Sec"]) ::
          [Node.tag "p" [] [Node.text "a"],
           Node.tag "h3" [] [Node.text "Sub"],
           Node.tag "h2" [] [Node.text "Next"]].takeWhile
            (fun sib => !stopsSection 2 sib))) :=
  ((slice_section_amended
      [Node.tag "body" []
        [Node.tag "h2" [("id", "sec")] [Node.text "Sec"],
         Node.tag "p" [] [Node.text "a"],
         Node.tag "h3" [] [Node.text "Sub"],
         Node.tag "h2" [] [Node.text "Next"]]] "sec"
      (Node.tag "h2" [("id", "sec")] [Node.text "Sec"])
      [Node.tag "p" [] [Node.text "a"],
       Node.tag "h3" [] [Node.text "Sub"],
       Node.tag "h2" [] [Node.text "Next"]]
      [(Node.tag "body" []
          [Node.tag "h2" [("id", "sec")] [Node.text "Sec"],
           Node.tag "p" [] [Node.text "a"],
           Node.tag "h3" [] [Node.text "Sub"],
           Node.tag "h2" [] [Node.text "Next"]], [])]
      (by decide) rfl).1
    (Node.tag "h2" [("id", "sec")] [Node.text "Sec"])
    [Node.tag "p" [] [Node.text "a"],
     Node.tag "h3" [] [Node.text "Sub"],
     Node.tag "h2" [] [Node.text "Next"]] rfl rfl).1

/-! ## crawl loop lemmas -/

lemma crawlLoop_terminal (env : CrawlEnv) (cfg : JobConfig) (st : CrawlState)
    (h : st.q = [] ∨ st.processed = cfg.max_pages) :
    ∀ fuel, crawlLoop env cfg fuel st = st := by
  intro fuel
  cases fuel with
  | zero => rfl
  | succ n =>
      have hstep : crawlStep env cfg st = none := by
        rcases h with h | h
        · simp [crawlStep, h]
        · unfold crawlStep
          cases hq : st.q with
          | nil => rfl
          | cons r rest => simp [h]
      simp [crawlLoop, hstep]

lemma processHead_processed_le (env : CrawlEnv) (cfg : JobConfig)
    (raw0 : String) (st : CrawlState) :
    (processHead env cfg raw0 st).processed ≤ st.processed + 1 := by
  simp only [processHead]
  repeat' split
  all_goals simp

lemma processHead_balance (env : CrawlEnv) (cfg : JobConfig)
    (raw0 : String) (st : CrawlState) :
    (processHead env cfg raw0 st).records.length + st.processed =
      st.records.length + (processHead env cfg raw0 st).processed := by
  simp only [processHead]
  repeat' split
  all_goals simp
  all_goals omega

lemma crawlLoop_processed_le (env : CrawlEnv) (cfg : JobConfig) :
    ∀ (fuel : Nat) (st : CrawlState), st.processed ≤ cfg.max_pages →
      (crawlLoop env cfg fuel st).processed ≤ cfg.max_pages
  | 0, st, h => h
  | fuel + 1, st, h => by
      unfold crawlLoop crawlStep
      cases hq : st.q with
      | nil => exact h
      | cons r rest =>
          by_cases hg : cfg.max_pages ≤ st.processed
          · simp only [if_pos hg]
            exact h
          · simp only [if_neg hg]
            apply crawlLoop_processed_le
            have h1 := processHead_processed_le env cfg r { st with q := rest }
            simp only at h1
            omega

lemma crawlLoop_balance (env : CrawlEnv) (cfg : JobConfig) :
    ∀ (fuel : Nat) (st : CrawlState),
      (crawlLoop env cfg fuel st).records.length + st.processed =
        st.records.length + (crawlLoop env cfg fuel st).processed
  | 0, st => rfl
  | fuel + 1, st => by
      unfold crawlLoop crawlStep
      cases hq : st.q with
      | nil => rfl
      | cons r rest =>
          by_cases hg : cfg.max_pages ≤ st.processed
          · simp only [if_pos hg]
          · simp only [if_neg hg]
            have hb := processHead_balance env cfg r { st with q := rest }
            have ih := crawlLoop_balance env cfg fuel
              (processHead env cfg r { st with q := rest })
            simp only at hb
            omega

/-! ## C1 — page budget and clean termination -/

/-- C1: a crawl produces at most `max_pages` PageRecords, and once the
loop is in a terminal state (empty frontier or `processed` equal to
`max_pages`) no further fetch happens, whatever remains queued. -/
theorem crawl_max_pages_and_termination (env : CrawlEnv) (cfg : JobConfig)
    (fuel : Nat) (hN : 1 ≤ cfg.max_pages) :
    (acrawl env cfg fuel).records.length ≤ cfg.max_pages ∧
    (∀ (st : CrawlState) (fuel2 : Nat),
      st.q = [] ∨ st.processed = cfg.max_pages →
      (crawlLoop env cfg fuel2 st).fetched = st.fetched) := by
  constructor
  · have hb := crawlLoop_balance env cfg fuel
      { q := cfg.seeds, visited := [], cache := [], records := [],
        processed := 0, fetched := [] }
    have hp := crawlLoop_processed_le env cfg fuel
      { q := cfg.seeds, visited := [], cache := [], records := [],
        processed := 0, fetched := [] } (Nat.zero_le _)
    unfold acrawl
    simp only [List.length_nil] at hb
    omega
  · intro st fuel2 h
    rw [crawlLoop_terminal env cfg st h fuel2]

/-- Witness for C1 on the concrete one-page site. -/
theorem crawl_max_pages_and_termination_witness :
    (acrawl envW cfgW 5).records.length ≤ cfgW.max_pages ∧
    (crawlLoop envW cfgW 3
      { q := ["https://h/q"], visited := [], cache := [], records := [],
        processed := cfgW.max_pages, fetched := [] }).fetched = [] :=
  ⟨(crawl_max_pages_and_termination envW cfgW 5 (by decide)).1,
   (crawl_max_pages_and_termination envW cfgW 5 (by decide)).2
     { q := ["https://h/q"], visited := [], cache := [], records := [],
       processed := cfgW.max_pages, fetched := [] } 3 (Or.inr rfl)⟩

/-! ## C7 — scope rejections and fetch failures are silent skips -/

/-- C7: when the head of the frontier is rejected by the same-domain
check, the path filter, or robots — or fetches unsuccessfully (`None`
from `fetch_html`, or an empty body) — the loop continues on the rest
of the frontier with `records` and `processed` unchanged: discarded
URLs never count toward `max_pages`. -/
theorem discard_continues_no_count (env : CrawlEnv) (cfg : JobConfig)
    (st : CrawlState) (raw0 u : String) (rest : List String) (fuel : Nat)
    (hq : st.q = raw0 :: rest) (hguard : st.processed < cfg.max_pages)
    (hraw : pyStrip raw0 ≠ "") (hu : (urldefrag (pyStrip raw0)).1 = u)
    (hv : u ∉ st.visited) :
    (seed_domain_ok cfg u = false →
      crawlLoop env cfg (fuel + 1) st =
        crawlLoop env cfg fuel
          { st with q := rest, visited := u :: st.visited }) ∧
    (seed_domain_ok cfg u = true → under_pfx u cfg.path_pfx = false →
      crawlLoop env cfg (fuel + 1) st =
        crawlLoop env cfg fuel
          { st with q := rest, visited := u :: st.visited }) ∧
    (seed_domain_ok cfg u = true → under_pfx u cfg.path_pfx = true →
      (allowed_cached env cfg st.cache u).1 = false →
      crawlLoop env cfg (fuel + 1) st =
        crawlLoop env cfg fuel
          { st with q := rest, visited := u :: st.visited,
                    cache := (allowed_cached env cfg st.cache u).2 }) ∧
    (seed_domain_ok cfg u = true → under_pfx u cfg.path_pfx = true →
      (allowed_cached env cfg st.cache u).1 = true →
      (env.fetch_html u = none ∨ (∃ f, env.fetch_html u = some ("", f))) →
      crawlLoop env cfg (fuel + 1) st =
        crawlLoop env cfg fuel
          { st with q := rest, visited := u :: st.visited,
                    cache := (allowed_cached env cfg st.cache u).2,
                    fetched := st.fetched ++ [u] }) := by
  have hng : ¬ cfg.max_pages ≤ st.processed := Nat.not_le.mpr hguard
  have hstep : crawlLoop env cfg (fuel + 1) st =
      crawlLoop env cfg fuel (processHead env cfg raw0 { st with q := rest }) := by
    simp [crawlLoop, crawlStep, hq, hng]
  refine ⟨?_, ?_, ?_, ?_⟩
  · intro hdom
    rw [hstep]
    congr 1
    simp only [processHead, hu, if_neg hraw]
    simp [hv, hdom]
  · intro hdom hpfx
    rw [hstep]
    congr 1
    simp only [processHead, hu, if_neg hraw]
    simp [hv, hdom, hpfx]
  · intro hdom hpfx hrob
    rw [hstep]
    congr 1
    simp only [processHead, hu, if_neg hraw]
    simp [hv, hdom, hpfx, hrob]
  · intro hdom hpfx hrob hfetch
    rw [hstep]
    congr 1
    simp only [processHead, hu, if_neg hraw]
    rcases hfetch with hf | ⟨f, hf⟩ <;> simp [hv, hdom, hpfx, hrob, hf]

/-- Witness for C7: on the one-page site, `https://x/p` fails the
same-domain check and `https://h/q` passes all scope checks but fails
to fetch; neither advances `records` or `processed`. -/
theorem discard_continues_no_count_witness :
    (crawlLoop envW cfgW 4
        { q := ["https://x/p"], visited := [], cache := [], records := [],
          processed := 0, fetched := [] } =
      crawlLoop envW cfgW 3
        { q := [], visited := ["https://x/p"], cache := [], records := [],
          processed := 0, fetched := [] }) ∧
    (crawlLoop envW cfgW 4
        { q := ["https://h/q"], visited := [], cache := [], records := [],
          processed := 0, fetched := [] } =
      crawlLoop envW cfgW 3
        { q := [], visited := ["https://h/q"], cache := [("h", none)],
          records := [], processed := 0, fetched := ["https://h/q"] }) :=
  ⟨(discard_continues_no_count envW cfgW
      { q := ["https://x/p"], visited := [], cache := [], records := [],
        processed := 0, fetched := [] }
      "https://x/p" "https://x/p" [] 3 rfl (by decide) (by decide) (by decide)
      (by decide)).1 (by decide),
   (discard_continues_no_count envW cfgW
      { q := ["https://h/q"], visited := [], cache := [], records := [],
        processed := 0, fetched := [] }
      "https://h/q" "https://h/q" [] 3 rfl (by decide) (by decide) (by decide)
      (by decide)).2.2.2 (by decide) (by decide) (by decide) (Or.inl rfl)⟩

/-! ## C2 — frontier entries differing only in fragment

The dedup check of app.py lines 297-299 runs on the fragment-stripped
form *before* the fetch, so the second of two frontier entries that
differ only in their fragment is skipped without being fetched: a raw
URL string is *not* fetched the first time it is seen when its stripped
form is already visited. -/

/-- C2 counterexample: seeds `https://h/p#a` and `https://h/p#b` are
distinct frontier items sharing the stripped form `https://h/p`, yet
the crawl performs a single fetch and produces a single record — the
second raw URL is never fetched or rendered. -/
theorem fragment_refetch_counterexample :
    cfgW.seeds = ["https://h/p#a", "https://h/p#b"] ∧
    "https://h/p#a" ≠ "https://h/p#b" ∧
    (urldefrag "https://h/p#a").1 = (urldefrag "https://h/p#b").1 ∧
    envW.fetch_html (urldefrag "https://h/p#b").1 ≠ none ∧
    (acrawl envW cfgW 5).fetched = ["https://h/p"] ∧
    (acrawl envW cfgW 5).records = ["https://h/p#a"] :=
  ⟨rfl, by decide, rfl, by decide, rfl, rfl⟩

/-- C2 (amended): two frontier entries differing only in fragment are
distinct frontier items but share a single fragment-stripped visited
key; only an entry whose stripped form is not yet visited is fetched
and rendered (producing a record that keeps the raw fragment-bearing
URL) — a later entry with the same stripped form is consumed without
any fetch, render or record. -/
theorem fragment_dedup_amended (env : CrawlEnv) (cfg : JobConfig)
    (st : CrawlState) (raw0 u : String) (rest : List String) (fuel : Nat)
    (hq : st.q = raw0 :: rest) (hguard : st.processed < cfg.max_pages)
    (hraw : pyStrip raw0 ≠ "") (hu : (urldefrag (pyStrip raw0)).1 = u) :
    (u ∈ st.visited →
      crawlLoop env cfg (fuel + 1) st =
        crawlLoop env cfg fuel { st with q := rest }) ∧
    (u ∉ st.visited → seed_domain_ok cfg u = true →
      under_pfx u cfg.path_pfx = true →
      (allowed_cached env cfg st.cache u).1 = true →
      ∀ html f, env.fetch_html u = some (html, f) → html ≠ "" →
      crawlLoop env cfg (fuel + 1) st =
        crawlLoop env cfg fuel
          { st with
              q := rest ++ discovered_links env cfg (u :: st.visited) f html,
              visited := u :: st.visited,
              cache := (allowed_cached env cfg st.cache u).2,
              records := st.records ++ [pyStrip raw0],
              processed := st.processed + 1,
              fetched := st.fetched ++ [u] }) := by
  have hng : ¬ cfg.max_pages ≤ st.processed := Nat.not_le.mpr hguard
  have hstep : crawlLoop env cfg (fuel + 1) st =
      crawlLoop env cfg fuel (processHead env cfg raw0 { st with q := rest }) := by
    simp [crawlLoop, crawlStep, hq, hng]
  constructor
  · intro hv
    rw [hstep]
    congr 1
    simp only [processHead, hu, if_neg hraw]
    simp [hv]
  · intro hv hdom hpfx hrob html f hf hhtml
    rw [hstep]
    congr 1
    simp only [processHead, hu, if_neg hraw]
    simp [hv, hdom, hpfx, hrob, hf, hhtml]

/-- Witness for C2 (amended) on the one-page site: the first
fragment-bearing seed is fetched and recorded; the second is consumed
with no state change beyond the pop. -/
theorem fragment_dedup_amended_witness :
    (crawlLoop envW cfgW 4
        { q := ["https://h/p#a", "https://h/p#b"], visited := [], cache := [],
          records := [], processed := 0, fetched := [] } =
      crawlLoop envW cfgW 3
        { q := ["https://h/p#b"], visited := ["https://h/p"],
          cache := [("h", none)], records := ["https://h/p#a"],
          processed := 1, fetched := ["https://h/p"] }) ∧
    (crawlLoop envW cfgW 3
        { q := ["https://h/p#b"], visited := ["https://h/p"],
          cache := [("h", none)], records := ["https://h/p#a"],
          processed := 1, fetched := ["https://h/p"] } =
      crawlLoop envW cfgW 2
        { q := [], visited := ["https://h/p"], cache := [("h", none)],
          records := ["https://h/p#a"], processed := 1,
          fetched := ["https://h/p"] }) :=
  ⟨(fragment_dedup_amended envW cfgW
      { q := ["https://h/p#a", "https://h/p#b"], visited := [], cache := [],
        records := [], processed := 0, fetched := [] }
      "https://h/p#a" "https://h/p" ["https://h/p#b"] 3 rfl (by decide)
      (by decide) (by decide)).2 (by decide) (by decide) (by decide) (by decide)
      "<html>x</html>" "https://h/p" (by decide) (by decide),
   (fragment_dedup_amended envW cfgW
      { q := ["https://h/p#b"], visited := ["https://h/p"],
        cache := [("h", none)], records := ["https://h/p#a"],
        processed := 1, fetched := ["https://h/p"] }
      "https://h/p#b" "https://h/p" [] 2 rfl (by decide) (by decide)
      (by decide)).1 (by decide)⟩

/-! ## C3 — breadth-first ordering -/

lemma sorted_append_iff {l1 l2 : List Nat} :
    List.Sorted (· ≤ ·) (l1 ++ l2) ↔
      List.Sorted (· ≤ ·) l1 ∧ List.Sorted (· ≤ ·) l2 ∧
        ∀ a ∈ l1, ∀ b ∈ l2, a ≤ b :=
  List.pairwise_append

lemma sorted_of_all_eq {l : List Nat} {c : Nat} (h : ∀ x ∈ l, x = c) :
    List.Sorted (· ≤ ·) l := by
  induction l with
  | nil => exact List.sorted_nil
  | cons a t ih =>
      refine List.sorted_cons.mpr ⟨?_, ih (fun x hx => h x (List.mem_cons_of_mem a hx))⟩
      intro b hb
      rw [h a (List.mem_cons_self a t), h b (List.mem_cons_of_mem a hb)]

lemma processHeadD_popLog (env : CrawlEnv) (cfg : JobConfig) (raw0 : String)
    (d : Nat) (st : CrawlStateD) :
    (processHeadD env cfg raw0 d st).popLog = st.popLog := by
  simp only [processHeadD]
  repeat' split
  all_goals simp

lemma processHeadD_q (env : CrawlEnv) (cfg : JobConfig) (raw0 : String)
    (d : Nat) (st : CrawlStateD) :
    ∃ adds, (processHeadD env cfg raw0 d st).q = st.q ++ adds ∧
      ∀ x ∈ adds, x.2 = d + 1 := by
  simp only [processHeadD]
  repeat' split
  all_goals first
    | exact ⟨[], (List.append_nil _).symm, by simp⟩
    | exact ⟨_, rfl, fun x hx => by
        rcases List.mem_map.mp hx with ⟨ln, _, rfl⟩; rfl⟩

lemma invD_step (pl rest adds : List (String × Nat)) (r0 : String) (d : Nat)
    (hs : List.Sorted (· ≤ ·) ((pl ++ (r0, d) :: rest).map (·.2)))
    (hsh : QShape ((r0, d) :: rest))
    (ha : ∀ x ∈ adds, x.2 = d + 1) :
    List.Sorted (· ≤ ·) (((pl ++ [(r0, d)]) ++ (rest ++ adds)).map (·.2)) ∧
      QShape (rest ++ adds) := by
  have hassoc : (pl ++ [(r0, d)]) ++ (rest ++ adds) =
      (pl ++ (r0, d) :: rest) ++ adds := by simp
  -- every depth in the old list is at most d + 1
  have hrest_le : ∀ x ∈ rest, x.2 ≤ d + 1 := by
    obtain ⟨d0, l1, l2, hq, h1, h2⟩ := hsh
    cases l1 with
    | nil =>
        simp only [List.nil_append] at hq
        cases l2 with
        | nil => simp at hq
        | cons y l2' =>
            rw [List.cons.injEq] at hq
            obtain ⟨hy, hr⟩ := hq
            have hd : d = d0 + 1 := by
              have hyy := h2 y (List.mem_cons_self y l2')
              rw [← hy] at hyy
              exact hyy
            intro x hx
            have hx2 := h2 x (List.mem_cons_of_mem y (hr ▸ hx))
            omega
    | cons y l1' =>
        rw [List.cons_append, List.cons.injEq] at hq
        obtain ⟨hy, hr⟩ := hq
        have hd : y.2 = d0 := h1 y (List.mem_cons_self y l1')
        have hdd : d = d0 := by rw [← hy] at hd; exact hd
        intro x hx
        rw [hr] at hx
        rcases List.mem_append.mp hx with hx | hx
        · have := h1 x (List.mem_cons_of_mem y hx); omega
        · have := h2 x hx; omega
  have hsplit := sorted_append_iff.mp (by simpa [List.map_append] using hs)
  have hpl_le : ∀ x ∈ pl, x.2 ≤ d :=
    fun x hx => hsplit.2.2 x.2 (List.mem_map_of_mem _ hx) d (by simp)
  constructor
  · rw [hassoc, List.map_append, sorted_append_iff]
    refine ⟨by simpa [List.map_append] using hs, ?_, ?_⟩
    · exact sorted_of_all_eq (fun x hx => by
        rcases List.mem_map.mp hx with ⟨y, hy, rfl⟩
        exact ha y hy)
    · intro a hha b hhb
      rcases List.mem_map.mp hhb with ⟨y, hy, rfl⟩
      rw [ha y hy]
      rcases List.mem_map.mp hha with ⟨x, hx, rfl⟩
      rcases List.mem_append.mp hx with hx | hx
      · exact Nat.le_trans (hpl_le x hx) (Nat.le_succ d)
      · rcases List.mem_cons.mp hx with hx | hx
        · rw [hx]
          exact Nat.le_succ d
        · exact hrest_le x hx
  · obtain ⟨d0, l1, l2, hq, h1, h2⟩ := hsh
    cases l1 with
    | nil =>
        simp only [List.nil_append] at hq
        cases l2 with
        | nil => simp at hq
        | cons y l2' =>
            rw [List.cons.injEq] at hq
            obtain ⟨hy, hr⟩ := hq
            have hd : d = d0 + 1 := by
              have := h2 y (List.mem_cons_self y l2')
              rw [← hy] at this
              exact this
            refine ⟨d0 + 1, l2', adds, by rw [hr], ?_, ?_⟩
            · intro x hx
              exact h2 x (List.mem_cons_of_mem y (hr ▸ hx))
            · intro x hx
              rw [ha x hx, hd]
    | cons y l1' =>
        rw [List.cons_append, List.cons.injEq] at hq
        obtain ⟨hy, hr⟩ := hq
        have hdd : d = d0 := by
          have := h1 y (List.mem_cons_self y l1')
          rw [← hy] at this
          exact this
        refine ⟨d0, l1', l2 ++ adds, by rw [hr, List.append_assoc], ?_, ?_⟩
        · intro x hx
          exact h1 x (List.mem_cons_of_mem y hx)
        · intro x hx
          rcases List.mem_append.mp hx with hx | hx
          · exact h2 x hx
          · rw [ha x hx, hdd]

lemma crawlStepD_inv (env : CrawlEnv) (cfg : JobConfig) (st st' : CrawlStateD)
    (h : crawlStepD env cfg st = some st') (hinv : InvD st) : InvD st' := by
  rcases hq : st.q with _ | ⟨⟨r0, d⟩, rest⟩
  · simp [crawlStepD, hq] at h
  · simp only [crawlStepD, hq] at h
    by_cases hg : cfg.max_pages ≤ st.processed
    · simp [hg] at h
    · rw [if_neg hg, Option.some.injEq] at h
      subst h
      obtain ⟨adds, hq', hadds⟩ := processHeadD_q env cfg r0 d
        { st with q := rest, popLog := st.popLog ++ [(r0, d)] }
      have hpl' := processHeadD_popLog env cfg r0 d
        { st with q := rest, popLog := st.popLog ++ [(r0, d)] }
      have hs : List.Sorted (· ≤ ·) ((st.popLog ++ (r0, d) :: rest).map (·.2)) := by
        have h0 := hinv.1
        rw [hq] at h0
        exact h0
      have hsh : QShape ((r0, d) :: rest) := by
        have h0 := hinv.2
        rw [hq] at h0
        exact h0
      have hmain := invD_step st.popLog rest adds r0 d hs hsh hadds
      constructor
      · rw [hpl', hq']
        exact hmain.1
      · rw [hq']
        exact hmain.2

lemma crawlLoopD_inv (env : CrawlEnv) (cfg : JobConfig) :
    ∀ (fuel : Nat) (st : CrawlStateD), InvD st →
      InvD (crawlLoopD env cfg fuel st)
  | 0, st, h => h
  | fuel + 1, st, h => by
      unfold crawlLoopD
      cases hstep : crawlStepD env cfg st with
      | none => exact h
      | some st' =>
          exact crawlLoopD_inv env cfg fuel st' (crawlStepD_inv env cfg st st' hstep h)

/-! erasure of the ghost depths -/

lemma processHead_eraseD (env : CrawlEnv) (cfg : JobConfig) (raw0 : String)
    (d : Nat) (st : CrawlStateD) :
    processHead env cfg raw0 (eraseD st) = eraseD (processHeadD env cfg raw0 d st) := by
  simp only [processHead, processHeadD, eraseD]
  repeat' split
  all_goals simp [List.map_append, List.map_map, Function.comp_def]

lemma crawlStep_eraseD (env : CrawlEnv) (cfg : JobConfig) (st : CrawlStateD) :
    crawlStep env cfg (eraseD st) = Option.map eraseD (crawlStepD env cfg st) := by
  obtain ⟨q, v, c, r, p, f, pl⟩ := st
  rcases q with _ | ⟨⟨r0, dd⟩, rest⟩
  · rfl
  · by_cases hg : cfg.max_pages ≤ p
    · simp [crawlStep, crawlStepD, eraseD, hg]
    · simp only [crawlStep, crawlStepD, eraseD, List.map_cons, if_neg hg,
        Option.map_some]
      congr 1
      exact processHead_eraseD env cfg r0 dd
        { q := rest, visited := v, cache := c, records := r, processed := p,
          fetched := f, popLog := pl ++ [(r0, dd)] }

lemma crawlLoop_eraseD (env : CrawlEnv) (cfg : JobConfig) :
    ∀ (fuel : Nat) (st : CrawlStateD),
      crawlLoop env cfg fuel (eraseD st) = eraseD (crawlLoopD env cfg fuel st)
  | 0, _ => rfl
  | fuel + 1, st => by
      unfold crawlLoop crawlLoopD
      rw [crawlStep_eraseD env cfg st]
      cases hstep : crawlStepD env cfg st with
      | none => rfl
      | some st' => exact crawlLoop_eraseD env cfg fuel st'

/-- C3: the traversal is breadth-first.  In the depth-annotated loop
(seeds at depth 0, a link discovered on a depth-`d` page at depth
`d + 1`, links enqueued in page order by `discovered_links`), the
sequence of depths of dequeued frontier entries is non-decreasing: all
depth-`d` entries are dequeued — hence all links discovered at depth
`d` enqueued — before any depth-`d + 1` entry is dequeued.  The depth
is ghost data: erasing it yields exactly `acrawl`. -/
theorem bfs_dequeue_depths_monotone (env : CrawlEnv) (cfg : JobConfig) (fuel : Nat) :
    List.Sorted (· ≤ ·) ((acrawlD env cfg fuel).popLog.map (·.2)) ∧
    eraseD (acrawlD env cfg fuel) = acrawl env cfg fuel := by
  constructor
  · have hinit : InvD
        { q := cfg.seeds.map (fun s => (s, 0)), visited := [], cache := [],
          records := [], processed := 0, fetched := [], popLog := [] } := by
      constructor
      · simp only [List.nil_append]
        exact sorted_of_all_eq (fun x hx => by
          rcases List.mem_map.mp hx with ⟨y, hy, rfl⟩
          rcases List.mem_map.mp hy with ⟨s, _, rfl⟩
          rfl)
      · exact ⟨0, cfg.seeds.map (fun s => (s, 0)), [], by simp,
          fun x hx => by rcases List.mem_map.mp hx with ⟨s, _, rfl⟩; rfl,
          by simp⟩
    have hfin := crawlLoopD_inv env cfg fuel _ hinit
    have hsorted := hfin.1
    have hsub : ((acrawlD env cfg fuel).popLog.map (·.2)).Sublist
        (((acrawlD env cfg fuel).popLog ++ (acrawlD env cfg fuel).q).map (·.2)) := by
      rw [List.map_append]
      exact List.sublist_append_left _ _
    exact List.Pairwise.sublist hsub hsorted
  · unfold acrawlD acrawl
    rw [← crawlLoop_eraseD env cfg fuel]
    congr 1
    simp [eraseD, List.map_map, Function.comp_def]
example : slugifySpec "  Hello World!  " = "hello-world" := by decide
example : slugify "---" = "index" := by decide
example : urldefrag "https://h/p#a" = ("https://h/p", "a") := by decide
example : (urlparse "https://h/private/x").path = "/private/x" := by decide
example : (urlparse "https://H:80/a;p?q=1#f") =
    { scheme := "https", netloc := "H:80", path := "/a", params := "p",
      query := "q=1", fragment := "f" } := by decide


/-! ## C8 — the sanitizer matches the specification's pipeline

`slugify` substitutes a single hyphen per *run* of characters outside
the class and strips surrounding whitespace first; the specification
words the pipeline as a per-character replacement with no initial
strip.  The two agree on every input: a replaced run collapses with the
hyphen-collapse stage, and stripped whitespace would have become
leading/trailing hyphens removed by the `-._` trim. -/

lemma length_dropWhile_le' (p : Char → Bool) :
    ∀ l : List Char, (List.dropWhile p l).length ≤ l.length
  | [] => Nat.le_refl 0
  | c :: cs => by
      rw [List.dropWhile_cons]
      by_cases h : p c
      · simp only [if_pos h]
        exact Nat.le_trans (length_dropWhile_le' p cs) (Nat.le_succ _)
      · simp [h]

lemma dw_append (p : Char → Bool) :
    ∀ xs ys : List Char, List.dropWhile p (xs ++ ys) =
      if List.dropWhile p xs = [] then List.dropWhile p ys
      else List.dropWhile p xs ++ ys
  | [], ys => by simp
  | x :: xs, ys => by
      by_cases h : p x
      · simp only [List.cons_append, List.dropWhile_cons, if_pos h]
        exact dw_append p xs ys
      · simp [List.dropWhile_cons, h]

lemma dw_replicate (p : Char → Bool) (c : Char) (h : p c = true) :
    ∀ k, List.dropWhile p (List.replicate k c) = []
  | 0 => rfl
  | k + 1 => by
      rw [List.replicate_succ, List.dropWhile_cons, if_pos h]
      exact dw_replicate p c h k

lemma dw_dw_of_imp (p q : Char → Bool) (himp : ∀ c, q c = true → p c = true) :
    ∀ l : List Char, List.dropWhile p (List.dropWhile q l) = List.dropWhile p l
  | [] => rfl
  | c :: cs => by
      by_cases h : q c
      · rw [List.dropWhile_cons, if_pos h, dw_dw_of_imp p q himp cs,
          List.dropWhile_cons, if_pos (himp c h)]
      · rw [List.dropWhile_cons, if_neg h]

lemma dw_map (p : Char → Bool) (f : Char → Char) :
    ∀ l : List Char, List.dropWhile p (l.map f) =
      (l.dropWhile (fun x => p (f x))).map f
  | [] => rfl
  | c :: cs => by
      by_cases h : p (f c)
      · simp only [List.map_cons, List.dropWhile_cons, if_pos h]
        exact dw_map p f cs
      · simp [List.dropWhile_cons, h]

lemma map_eq_replicate_of_all (f : Char → Char) :
    ∀ u : List Char, (∀ x ∈ u, f x = '-') →
      u.map f = List.replicate u.length '-'
  | [], _ => rfl
  | c :: cs, h => by
      rw [List.map_cons, h c (List.mem_cons_self c cs), List.length_cons,
        List.replicate_succ,
        map_eq_replicate_of_all f cs (fun x hx => h x (List.mem_cons_of_mem c hx))]

/-! run equations for the structural substitution functions -/

lemma subRunsAux_true :
    ∀ cs : List Char, subRunsAux true cs =
      subRuns (cs.dropWhile (fun d => !slugChar d))
  | [] => rfl
  | c :: cs => by
      by_cases h : slugChar c
      · have h1 : subRunsAux true (c :: cs) = c :: subRunsAux false cs := by
          simp [subRunsAux, h]
        rw [h1, List.dropWhile_cons, if_neg (by simp [h])]
        simp [subRuns, subRunsAux, h]
      · have h1 : subRunsAux true (c :: cs) = subRunsAux true cs := by
          simp [subRunsAux, h]
        rw [h1, List.dropWhile_cons, if_pos (by simp [h] : (!slugChar c) = true)]
        exact subRunsAux_true cs

lemma subRuns_cons (c : Char) (cs : List Char) :
    subRuns (c :: cs) =
      if slugChar c then c :: subRuns cs
      else '-' :: subRuns (cs.dropWhile (fun d => !slugChar d)) := by
  by_cases h : slugChar c
  · simp [subRuns, subRunsAux, h]
  · simp [subRuns, subRunsAux, h, subRunsAux_true cs]

lemma collapseHyAux_true :
    ∀ cs : List Char, collapseHyAux true cs =
      collapseHy (cs.dropWhile (fun d => d = '-'))
  | [] => rfl
  | c :: cs => by
      by_cases h : c = '-'
      · simp only [collapseHyAux, if_pos h, List.dropWhile_cons,
          if_pos (by simp [h] : decide (c = '-') = true)]
        exact collapseHyAux_true cs
      · simp [collapseHyAux, collapseHy, h, List.dropWhile_cons]

lemma collapseHy_cons (c : Char) (cs : List Char) :
    collapseHy (c :: cs) =
      if c = '-' then '-' :: collapseHy (cs.dropWhile (fun d => d = '-'))
      else c :: collapseHy cs := by
  by_cases h : c = '-'
  · simp [collapseHy, collapseHyAux, h, collapseHyAux_true cs]
  · simp [collapseHy, collapseHyAux, h]

/-! per-run substitution against per-character substitution -/

lemma chi_hyphen_pred :
    (fun x => decide (chi x = '-')) =
      (fun c => decide (c = '-') || !slugChar c) := by
  funext c
  by_cases h : slugChar c
  · simp [chi, h]
  · simp [chi, h]

lemma dw_subRuns :
    ∀ m : List Char,
      List.dropWhile (fun d => d = '-') (subRuns m) =
        subRuns (m.dropWhile (fun c => decide (c = '-') || !slugChar c))
  | [] => rfl
  | c :: cs => by
      by_cases hs : slugChar c
      · by_cases hh : c = '-'
        · rw [subRuns_cons, if_pos hs, List.dropWhile_cons,
            if_pos (by simp [hh] : decide (c = '-') = true),
            List.dropWhile_cons, if_pos (by simp [hh]),
            dw_subRuns cs]
        · rw [subRuns_cons, if_pos hs, List.dropWhile_cons,
            if_neg (by simp [hh] : ¬ decide (c = '-') = true),
            List.dropWhile_cons, if_neg (by simp [hh, hs]),
            subRuns_cons, if_pos hs]
      · rw [subRuns_cons, if_neg hs, List.dropWhile_cons,
          if_pos (by simp : decide (('-' : Char) = '-') = true),
          List.dropWhile_cons, if_pos (by simp [hs]),
          dw_subRuns (cs.dropWhile (fun d => !slugChar d)),
          dw_dw_of_imp _ _ (fun x hx => by simp at hx; simp [hx]) cs]
termination_by m => m.length
decreasing_by
  · simp only [List.length_cons]
    omega
  · have h := length_dropWhile_le' (fun d => !slugChar d) cs
    simp only [List.length_cons]
    omega

lemma collapse_subRuns :
    ∀ m : List Char, collapseHy (subRuns m) = collapseHy (m.map chi)
  | [] => rfl
  | c :: cs => by
      by_cases hs : slugChar c
      · by_cases hh : c = '-'
        · rw [subRuns_cons, if_pos hs, collapseHy_cons, if_pos hh,
            List.map_cons, collapseHy_cons,
            if_pos (by simp [chi, hs, hh] : chi c = '-'),
            dw_subRuns cs, dw_map, chi_hyphen_pred,
            collapse_subRuns (cs.dropWhile (fun c => decide (c = '-') || !slugChar c))]
        · rw [subRuns_cons, if_pos hs, collapseHy_cons, if_neg hh,
            List.map_cons, collapseHy_cons,
            if_neg (by simp [chi, hs, hh] : ¬ chi c = '-'),
            collapse_subRuns cs]
          simp [chi, hs]
      · rw [subRuns_cons, if_neg hs, collapseHy_cons, if_pos rfl,
          List.map_cons, collapseHy_cons,
          if_pos (by simp [chi, hs] : chi c = '-'),
          dw_subRuns (cs.dropWhile (fun d => !slugChar d)),
          dw_dw_of_imp _ _ (fun x hx => by simp at hx; simp [hx]) cs,
          dw_map, chi_hyphen_pred,
          collapse_subRuns (cs.dropWhile (fun c => decide (c = '-') || !slugChar c))]
termination_by m => m.length
decreasing_by
  · have h := length_dropWhile_le' (fun c => decide (c = '-') || !slugChar c) cs
    simp only [List.length_cons]
    omega
  · simp only [List.length_cons]
    omega
  · have h := length_dropWhile_le' (fun c => decide (c = '-') || !slugChar c) cs
    simp only [List.length_cons]
    omega

/-! whitespace stripped up front is absorbed by the trim stage -/

lemma lb1 (t : List Char) :
    List.dropWhile trimChar (collapseHy (t.dropWhile (fun d => d = '-'))) =
      List.dropWhile trimChar (collapseHy t) := by
  cases t with
  | nil => rfl
  | cons c cs =>
      by_cases h : c = '-'
      · rw [List.dropWhile_cons, if_pos (by simp [h]), collapseHy_cons, if_pos h,
          List.dropWhile_cons, if_pos (by decide : trimChar '-' = true)]
      · rw [List.dropWhile_cons, if_neg (by simp [h])]

lemma lb0 :
    ∀ (k : Nat) (t : List Char),
      List.dropWhile trimChar (collapseHy (List.replicate k '-' ++ t)) =
        List.dropWhile trimChar (collapseHy t)
  | 0, t => rfl
  | k + 1, t => by
      have hdrop : List.dropWhile (fun d => d = '-')
          (List.replicate k '-' ++ t) = List.dropWhile (fun d => d = '-') t := by
        rw [dw_append, dw_replicate _ _ (by decide) k, if_pos rfl]
      rw [List.replicate_succ, List.cons_append, collapseHy_cons, if_pos rfl,
        List.dropWhile_cons, if_pos (by decide : trimChar '-' = true), hdrop]
      exact lb1 t

lemma collapse_append_replicate :
    ∀ (t : List Char) (k : Nat),
      collapseHy (t ++ List.replicate (k + 1) '-') = collapseHy (t ++ ['-'])
  | [], k => by
      rw [List.nil_append, List.nil_append, List.replicate_succ, collapseHy_cons,
        if_pos rfl, dw_replicate _ _ (by decide) k]
      rfl
  | c :: cs, k => by
      by_cases h : c = '-'
      · rw [List.cons_append, List.cons_append, collapseHy_cons, if_pos h,
          collapseHy_cons, if_pos h]
        congr 1
        rw [dw_append, dw_append]
        by_cases hd : List.dropWhile (fun d => d = '-') cs = []
        · rw [if_pos hd, if_pos hd, dw_replicate _ _ (by decide) (k + 1)]
          rfl
        · rw [if_neg hd, if_neg hd]
          exact collapse_append_replicate (List.dropWhile (fun d => d = '-') cs) k
      · rw [List.cons_append, List.cons_append, collapseHy_cons, if_neg h,
          collapseHy_cons, if_neg h, collapse_append_replicate cs k]
termination_by t _ => t.length
decreasing_by
  · have h2 := length_dropWhile_le' (fun d => d = '-') cs
    simp only [List.length_cons]
    omega
  · simp only [List.length_cons]
    omega

lemma collapse_append_hyphen :
    ∀ t : List Char,
      collapseHy (t ++ ['-']) = collapseHy t ++ ['-'] ∨
        collapseHy (t ++ ['-']) = collapseHy t
  | [] => Or.inl rfl
  | c :: cs => by
      by_cases h : c = '-'
      · rw [List.cons_append, collapseHy_cons, if_pos h, collapseHy_cons, if_pos h,
          dw_append]
        by_cases hd : List.dropWhile (fun d => d = '-') cs = []
        · rw [if_pos hd, hd]
          exact Or.inr rfl
        · rw [if_neg hd]
          rcases collapse_append_hyphen (List.dropWhile (fun d => d = '-') cs)
            with h2 | h2
          · left
            rw [h2, List.cons_append]
          · right
            rw [h2]
      · rw [List.cons_append, collapseHy_cons, if_neg h, collapseHy_cons, if_neg h]
        rcases collapse_append_hyphen cs with h2 | h2
        · left
          rw [h2, List.cons_append]
        · right
          rw [h2]
termination_by t => t.length
decreasing_by
  · have h2 := length_dropWhile_le' (fun d => d = '-') cs
    simp only [List.length_cons]
    omega
  · simp only [List.length_cons]
    omega

lemma stripTrim_append_hyphen (X : List Char) :
    stripTrim (X ++ ['-']) = stripTrim X := by
  unfold stripTrim
  rw [dw_append]
  by_cases hd : List.dropWhile trimChar X = []
  · rw [if_pos hd, hd]
    rfl
  · rw [if_neg hd, List.reverse_append]
    have hrev : (['-'] : List Char).reverse ++ (List.dropWhile trimChar X).reverse =
        '-' :: (List.dropWhile trimChar X).reverse := rfl
    rw [hrev, List.dropWhile_cons, if_pos (by decide : trimChar '-' = true)]

lemma stripTrim_collapse_append_rep :
    ∀ (t : List Char) (k : Nat),
      stripTrim (collapseHy (t ++ List.replicate k '-')) =
        stripTrim (collapseHy t)
  | t, 0 => by rw [List.replicate_zero, List.append_nil]
  | t, k + 1 => by
      rw [collapse_append_replicate t k]
      rcases collapse_append_hyphen t with h | h
      · rw [h, stripTrim_append_hyphen]
      · rw [h]

lemma stripTrim_collapse_rep_left (k : Nat) (t : List Char) :
    stripTrim (collapseHy (List.replicate k '-' ++ t)) =
      stripTrim (collapseHy t) := by
  unfold stripTrim
  rw [lb0 k t]

lemma stripTrim_collapse_strip (h : Char → Char)
    (hws : ∀ c, wsChar c = true → h c = '-') (l : List Char) :
    stripTrim (collapseHy ((pyStripL l).map h)) =
      stripTrim (collapseHy (l.map h)) := by
  set l1 := l.dropWhile wsChar with hl1
  have hsplit1 : l = l.takeWhile wsChar ++ l1 :=
    (List.takeWhile_append_dropWhile wsChar l).symm
  have h1 : pyStripL l = (l1.reverse.dropWhile wsChar).reverse := by
    rw [hl1]
    rfl
  have hsplit2 : l1 = pyStripL l ++ (l1.reverse.takeWhile wsChar).reverse := by
    rw [h1, ← List.reverse_append, List.takeWhile_append_dropWhile,
      List.reverse_reverse]
  have hmapl : l.map h =
      List.replicate (l.takeWhile wsChar).length '-' ++
        ((pyStripL l).map h ++
          List.replicate (l1.reverse.takeWhile wsChar).length '-') := by
    conv_lhs => rw [hsplit1, List.map_append, hsplit2, List.map_append]
    congr 1
    · exact map_eq_replicate_of_all h _
        (fun x hx => hws x (List.mem_takeWhile_imp hx))
    · congr 1
      rw [map_eq_replicate_of_all h _
        (fun x hx => hws x (List.mem_takeWhile_imp (List.mem_reverse.mp hx))),
        List.length_reverse]
  rw [hmapl, stripTrim_collapse_rep_left, stripTrim_collapse_append_rep]

/-- C8: `slugify` computes exactly the specification's pipeline —
lowercase, spaces to hyphens, every character outside `[A-Za-z0-9-_.]`
to a hyphen, hyphen runs collapsed, leading and trailing `-._` trimmed,
`"index"` when empty. -/
theorem slugify_matches_spec (s : String) : slugify s = slugifySpec s := by
  have hws : ∀ c, wsChar c = true → chi (spaceHy (Char.toLower c)) = '-' := by
    intro c hc
    simp only [wsChar, Bool.or_eq_true, decide_eq_true_eq] at hc
    rcases hc with ((((rfl | rfl) | rfl) | rfl) | rfl) | rfl <;> rfl
  have hcore := stripTrim_collapse_strip
    (fun c => chi (spaceHy (Char.toLower c))) hws s.toList
  unfold slugify slugifySpec
  simp only [collapse_subRuns, List.map_map, Function.comp_def]
  rw [hcore]

end SuperTxt
